import Mathlib

/-!
Verification development for the auxon-sdk Python client libraries.

Part 1 embeds the attribute-value formatter
(src/client-libraries/python/src/modality/attr.py) as a shallow embedding
over a model of the JSON-decoded Python values it receives.
Part 2 models the plugin configuration resolver, the schema flattener and
the mutator parameter system; the resolver and the parameter descriptor
protocol live in the native core which is not shipped under src/, so those
definitions are modelled from the spec and are marked as such.
Part 3 embeds the mutator class decorator
(src/client-libraries/python/auxon-sdk/python/auxon_sdk/__init__.py).
-/

namespace AuxonSDK

/-- Association lookup on a list of key/value pairs, first match wins.
Models lookup in a Python dict represented as an insertion-ordered
association list with distinct keys. -/
def assocGet {α : Type} (l : List (String × α)) (k : String) : Option α :=
  (l.find? (fun kv => kv.1 == k)).map (fun kv => kv.2)

/-- Model of the Python values that can reach format_json_attr_val after
JSON decoding: strings, integers, booleans, floats (carried as their
repr text, since the formatter never computes with them), None, lists
and dicts. -/
inductive PyVal where
  | str (s : String)
  | int (n : Int)
  | bool (b : Bool)
  | float (lit : String)
  | none
  | list (xs : List PyVal)
  | dict (kvs : List (String × PyVal))

/-- The Python exceptions that the embedded code can raise. -/
inductive PyErr where
  | typeError
  | keyError
  | valueError
  | attributeError
deriving DecidableEq

/-- Quoting used by the Python repr of a string: double quotes are chosen
exactly when the string holds a single quote but no double quote. -/
def pyQuoteChar (s : String) : Char :=
  if s.toList.contains (Char.ofNat 39) && !(s.toList.contains (Char.ofNat 34))
  then Char.ofNat 34 else Char.ofNat 39

/-- Escaping of one character inside a Python string repr (printable
subset: backslash, the active quote, newline, tab, carriage return). -/
def pyEscapeChar (q c : Char) : List Char :=
  if c = Char.ofNat 92 then [Char.ofNat 92, Char.ofNat 92]
  else if c = q then [Char.ofNat 92, c]
  else if c = Char.ofNat 10 then [Char.ofNat 92, 'n']
  else if c = Char.ofNat 9 then [Char.ofNat 92, 't']
  else if c = Char.ofNat 13 then [Char.ofNat 92, 'r']
  else [c]

/-- Model of the Python repr of a string (printable subset). -/
def pyReprStr (s : String) : String :=
  let q := pyQuoteChar s
  String.mk (q :: (s.toList.flatMap (pyEscapeChar q) ++ [q]))

/-- Model of the Python repr function on the modelled values. -/
def pyRepr : PyVal → String
  | PyVal.str s => pyReprStr s
  | PyVal.int n => toString n
  | PyVal.bool b => if b then "True" else "False"
  | PyVal.float lit => lit
  | PyVal.none => "None"
  | PyVal.list xs =>
      "[" ++ String.intercalate ", " (xs.attach.map (fun x => pyRepr x.1)) ++ "]"
  | PyVal.dict kvs =>
      "\x7b" ++
        String.intercalate ", "
          (kvs.attach.map (fun kv => pyReprStr kv.1.1 ++ ": " ++ pyRepr kv.1.2)) ++
      "\x7d"
decreasing_by
  · have h := List.sizeOf_lt_of_mem x.2
    simp only [PyVal.list.sizeOf_spec]
    omega
  · have h := List.sizeOf_lt_of_mem kv.2
    have h2 : sizeOf kv.1.2 < sizeOf kv.1 := by
      obtain ⟨a, b⟩ := kv.1
      simp only [Prod.mk.sizeOf_spec]
      omega
    simp only [PyVal.dict.sizeOf_spec]
    omega

/-- Model of the Python str function: identity on strings, repr elsewhere.
This is the semantics of the format string used throughout
format_json_attr_val. -/
def pyStr (v : PyVal) : String :=
  match v with
  | PyVal.str s => s
  | w => pyRepr w

/-- Model of the Python membership test needle in val, as used by the
formatter tag checks: key test on dicts, element equality on lists
(only string elements can equal a string needle), substring test on
strings, TypeError on the remaining scalars. -/
def pyIn (needle : String) (v : PyVal) : Except PyErr Bool :=
  match v with
  | PyVal.dict kvs => Except.ok (kvs.any (fun kv => kv.1 == needle))
  | PyVal.list xs =>
      Except.ok (xs.any (fun x =>
        match x with
        | PyVal.str s => s == needle
        | _ => false))
  | PyVal.str s => Except.ok (decide (needle.toList <:+: s.toList))
  | _ => Except.error PyErr.typeError

/-- Model of the Python subscript val[k] with a string key: dict lookup
raising KeyError on a missing key, TypeError on lists, strings and the
remaining scalars (string keys do not index those). -/
def pySubscript (v : PyVal) (k : String) : Except PyErr PyVal :=
  match v with
  | PyVal.dict kvs =>
      match assocGet kvs k with
      | Option.some w => Except.ok w
      | Option.none => Except.error PyErr.keyError
  | _ => Except.error PyErr.typeError

/-- Replacement of every occurrence of a pattern by the empty string in a
character list, scanning left to right, as the Python str.replace with an
empty replacement does. Fuel-based so that it computes by reduction; the
initial fuel is the list length, which suffices because every step
consumes at least one character. -/
def replacePatFuel (pat : List Char) : Nat → List Char → List Char
  | _, [] => []
  | 0, s => s
  | Nat.succ f, c :: rest =>
      if pat.isPrefixOf (c :: rest) then
        replacePatFuel pat f ((c :: rest).drop pat.length)
      else
        c :: replacePatFuel pat f rest

/-- Removal of all occurrences of a nonempty pattern, modelling the Python
s.replace(pat, empty). -/
def replacePat (pat s : List Char) : List Char :=
  replacePatFuel pat s.length s

/-- Model of the Python str.strip(chars): drop characters of the set from
both ends. -/
def pyStrip (set s : List Char) : List Char :=
  ((s.dropWhile (fun c => set.contains c)).reverse.dropWhile
    (fun c => set.contains c)).reverse

/-- Hexadecimal digit characters, lowercase, as the Python hex formatting
produces. -/
def hexDigitChar (n : Nat) : Char :=
  if n < 10 then Char.ofNat (48 + n) else Char.ofNat (87 + n)

/-- Test for an ASCII hexadecimal digit, either case. -/
def isHexChar (c : Char) : Bool :=
  c.isDigit || (Char.ofNat 97 ≤ c && c ≤ Char.ofNat 102)
    || (Char.ofNat 65 ≤ c && c ≤ Char.ofNat 70)

/-- Lowercasing of an ASCII hexadecimal digit, identity elsewhere. -/
def lowerHexChar (c : Char) : Char :=
  if Char.ofNat 65 ≤ c && c ≤ Char.ofNat 70 then Char.ofNat (c.toNat + 32) else c

/-- Model of the Python uuid.UUID constructor composed with the hex
property, for hexadecimal/hyphen style inputs: the constructor removes
the urn: and uuid: prefixes, strips braces, removes hyphens, requires 32
hex digits, parses the integer and the hex property prints it back as 32
lowercase hex digits, which on such inputs equals lowercasing the
normalized digits. Exotic int-parse forms (signs, underscores,
whitespace) are not modelled and are rejected. -/
def pyUuidHex (s : String) : Option String :=
  let h0 := replacePat ['u', 'r', 'n', ':'] s.toList
  let h1 := replacePat ['u', 'u', 'i', 'd', ':'] h0
  let h2 := pyStrip [Char.ofNat 123, Char.ofNat 125] h1
  let h := replacePat ['-'] h2
  if h.length == 32 && h.all isHexChar then
    Option.some (String.mk (h.map lowerHexChar))
  else
    Option.none

/-- Minimal lowercase hexadecimal digits of a natural number, most
significant first, via fuel equal to the number itself (enough since the
number shrinks by a factor of 16 each step). Models the digits produced
by the Python hex format. -/
def pyHexAux : Nat → Nat → List Char → List Char
  | 0, n, acc => hexDigitChar (n % 16) :: acc
  | Nat.succ f, n, acc =>
      if n < 16 then hexDigitChar n :: acc
      else pyHexAux f (n / 16) (hexDigitChar (n % 16) :: acc)

/-- Minimal lowercase hexadecimal digit list of a natural number. -/
def pyHexDigits (n : Nat) : List Char :=
  pyHexAux n n []

/-- Model of the Python format(n, 02x) on an integer: minimal lowercase
hex digits, zero padded to overall width two, the sign counting toward
the width and the padding going between sign and digits. -/
def format02xInt (n : Int) : String :=
  let mag := pyHexDigits n.natAbs
  if n < 0 then
    String.mk ('-' :: (List.replicate (2 - (mag.length + 1)) '0' ++ mag))
  else
    String.mk (List.replicate (2 - mag.length) '0' ++ mag)

/-- The b != 0 test of the id-byte loop: numeric on ints and bools,
and true for every other value since values of a different type are
never equal to the integer zero in Python. -/
def pyNeZero (v : PyVal) : Bool :=
  match v with
  | PyVal.int n => n != 0
  | PyVal.bool b => b
  | _ => true

/-- The format(b, 02x) call of the id-byte loop: defined on ints and
bools (bools are ints in Python), TypeError elsewhere. -/
def pyFormat02x (v : PyVal) : Except PyErr String :=
  match v with
  | PyVal.int n => Except.ok (format02xInt n)
  | PyVal.bool b => Except.ok (format02xInt (if b then 1 else 0))
  | _ => Except.error PyErr.typeError

/-- Index of the first element satisfying the predicate, translated from
the enumerate/break loop of the formatter. -/
def pyFindIdx (p : PyVal → Bool) : List PyVal → Option Nat
  | [] => Option.none
  | x :: rest =>
      if p x then Option.some 0 else (pyFindIdx p rest).map (fun i => i + 1)

/-- The id-byte half of the EventCoordinate branch, translated from the
source: compute the cursor as the first index holding a non-zero byte
(defaulting to the length), emit the single character 0 when the cursor
reached the end, and otherwise emit the two-digit hex encoding of every
byte from the cursor on. -/
def srcTrim (xs : List PyVal) : Except PyErr String :=
  let cursor := (pyFindIdx pyNeZero xs).getD xs.length
  if cursor = xs.length then Except.ok "0"
  else
    match (xs.drop cursor).mapM pyFormat02x with
    | Except.error e => Except.error e
    | Except.ok hexes => Except.ok (String.join hexes)

/-- The body of the try block of format_json_attr_val, translated
branch for branch from src/client-libraries/python/src/modality/attr.py:
check the four tags in order, stringify the embedded value for the three
passthrough tags, and for EventCoordinate parse the timeline id as a
UUID, print its hex digits, a colon, and the trimmed id bytes; any
non-matching value falls to generic stringification. -/
def formatTry (val : PyVal) : Except PyErr String :=
  match pyIn "TimelineId" val with
  | Except.error e => Except.error e
  | Except.ok true =>
      match pySubscript val "TimelineId" with
      | Except.error e => Except.error e
      | Except.ok x => Except.ok (pyStr x)
  | Except.ok false =>
  match pyIn "BigInt" val with
  | Except.error e => Except.error e
  | Except.ok true =>
      match pySubscript val "BigInt" with
      | Except.error e => Except.error e
      | Except.ok x => Except.ok (pyStr x)
  | Except.ok false =>
  match pyIn "Timestamp" val with
  | Except.error e => Except.error e
  | Except.ok true =>
      match pySubscript val "Timestamp" with
      | Except.error e => Except.error e
      | Except.ok x => Except.ok (pyStr x)
  | Except.ok false =>
  match pyIn "EventCoordinate" val with
  | Except.error e => Except.error e
  | Except.ok false => Except.ok (pyStr val)
  | Except.ok true =>
      match pySubscript val "EventCoordinate" with
      | Except.error e => Except.error e
      | Except.ok ec =>
          match pySubscript ec "timeline_id" with
          | Except.error e => Except.error e
          | Except.ok (PyVal.str ts) =>
              match pyUuidHex ts with
              | Option.none => Except.error PyErr.valueError
              | Option.some hex =>
                  match pySubscript ec "id" with
                  | Except.error e => Except.error e
                  | Except.ok (PyVal.list xs) =>
                      (match srcTrim xs with
                       | Except.error e => Except.error e
                       | Except.ok tail => Except.ok (hex ++ ":" ++ tail))
                  | Except.ok _ => Except.error PyErr.typeError
          | Except.ok _ => Except.error PyErr.attributeError

/-- Shallow embedding of format_json_attr_val: strings are returned
unchanged before the try block; the try body runs with TypeError caught
and turned into generic stringification; any other exception escapes. -/
def format_json_attr_val (val : PyVal) : Except PyErr String :=
  match val with
  | PyVal.str s => Except.ok s
  | v =>
      match formatTry v with
      | Except.ok s => Except.ok s
      | Except.error PyErr.typeError => Except.ok (pyStr v)
      | Except.error e => Except.error e

/-! ### Claim-side definitions for the EventCoordinate formatting claim -/

/-- The EventCoordinate wire value of the claim: a dict tagged
EventCoordinate holding a timeline_id string and an id byte list. -/
def ecVal (t : String) (bs : List Nat) : PyVal :=
  PyVal.dict [("EventCoordinate",
    PyVal.dict [("timeline_id", PyVal.str t),
                ("id", PyVal.list (bs.map (fun b => PyVal.int (Int.ofNat b))))])]

/-- Valid UUID text in the sense of the claim hypothesis: hexadecimal
digits (either case) and hyphens, thirty-two digits once hyphens are
removed. -/
def validUuidText (t : String) : Prop :=
  (∀ c ∈ t.toList, c = '-' ∨ isHexChar c = true) ∧
    (t.toList.filter (fun c => c ≠ '-')).length = 32

instance (t : String) : Decidable (validUuidText t) := by
  unfold validUuidText; infer_instance

/-- The hex digits of the input with hyphens removed, word for word the
UUID component the claim asserts. -/
def removeHyphens (t : String) : String :=
  String.mk (t.toList.filter (fun c => c ≠ '-'))

/-- The UUID component the code actually emits: hyphens removed and every
hex digit lowercased. -/
def lowerHexNoHyphens (t : String) : String :=
  String.mk ((t.toList.filter (fun c => c ≠ '-')).map lowerHexChar)

/-- Two lowercase hex digits of one byte, zero padded, as the claim
describes the per-byte encoding. -/
def specByteHex (b : Nat) : String :=
  String.mk [hexDigitChar (b / 16), hexDigitChar (b % 16)]

/-- The trimmed-hex component as the claim words it: the single character
0 when every byte is zero, and otherwise the per-byte encoding of the
suffix starting at the first non-zero byte. -/
def specTrimmedHex (bs : List Nat) : String :=
  if bs.all (fun b => b == 0) then "0"
  else String.join ((bs.dropWhile (fun b => b == 0)).map specByteHex)

/-! ### Configuration resolver

The PluginConfig resolver is implemented by the native core shipped as
the compiled extension module, which is not under src/; only its tests
are. The definitions below are modelled from the spec. -/

/-- Modelled from the spec: the declared type of a configuration field,
one of text, integer, floating-point, boolean. -/
inductive ConfigTy where
  | text
  | integer
  | floatTy
  | boolean
deriving DecidableEq

/-- Modelled from the spec: a resolved configuration value (floats are
modelled as exact decimals, since the spec speaks of parsing decimal
text). Also reused as a TOML scalar for the file source. -/
inductive ConfigVal where
  | str (s : String)
  | intv (n : Int)
  | floatv (q : Rat)
  | boolv (b : Bool)
deriving DecidableEq

/-- Modelled from the spec: the configuration error taxonomy. -/
inductive ConfigError where
  | typeMismatch
  | invalidBounds
deriving DecidableEq

/-- Base ten digits of a character list, none when empty or when a
non-digit appears. -/
def parseDigits? (cs : List Char) : Option Nat :=
  if cs = [] then Option.none
  else if cs.all Char.isDigit then
    Option.some (cs.foldl (fun a c => a * 10 + (c.toNat - 48)) 0)
  else Option.none

/-- Modelled from the spec: parse text as a base ten signed integer. -/
def parseIntText (s : String) : Option Int :=
  match s.toList with
  | '-' :: rest => (parseDigits? rest).map (fun n => -(n : Int))
  | '+' :: rest => (parseDigits? rest).map (fun n => (n : Int))
  | cs => (parseDigits? cs).map (fun n => (n : Int))

/-- Modelled from the spec: parse text as a decimal number, with an
optional sign, integer part and optional fractional part. -/
def parseFloatText (s : String) : Option Rat :=
  let core : List Char → Option Rat := fun cs =>
    let ip := cs.takeWhile (fun c => c ≠ '.')
    let rest := cs.dropWhile (fun c => c ≠ '.')
    match rest with
    | [] => (parseDigits? ip).map (fun n => (n : Rat))
    | _ :: fp =>
        match parseDigits? ip, parseDigits? fp with
        | Option.some i, Option.some f =>
            Option.some ((i : Rat) + (f : Rat) / ((10 : Rat) ^ fp.length))
        | _, _ => Option.none
  match s.toList with
  | '-' :: rest => (core rest).map (fun q => -q)
  | '+' :: rest => core rest
  | cs => core cs

/-- Uppercasing character by character (ASCII), as the environment key
derivation needs. -/
def strUpper (s : String) : String :=
  String.mk (s.toList.map Char.toUpper)

/-- Lowercasing character by character (ASCII), as the boolean coercion
needs. -/
def strLower (s : String) : String :=
  String.mk (s.toList.map Char.toLower)

/-- Modelled from the spec: coercion of an environment string to the
declared field type, with a case-insensitive true/false match for
booleans, failing with TypeMismatch on malformed text. -/
def coerceEnv (ty : ConfigTy) (s : String) : Except ConfigError ConfigVal :=
  match ty with
  | ConfigTy.text => Except.ok (ConfigVal.str s)
  | ConfigTy.integer =>
      match parseIntText s with
      | Option.some n => Except.ok (ConfigVal.intv n)
      | Option.none => Except.error ConfigError.typeMismatch
  | ConfigTy.floatTy =>
      match parseFloatText s with
      | Option.some q => Except.ok (ConfigVal.floatv q)
      | Option.none => Except.error ConfigError.typeMismatch
  | ConfigTy.boolean =>
      if strLower s = "true" then Except.ok (ConfigVal.boolv true)
      else if strLower s = "false" then Except.ok (ConfigVal.boolv false)
      else Except.error ConfigError.typeMismatch

/-- Modelled from the spec: coercion of a native TOML scalar from the
configuration file to the declared field type, passing matching natives
through and failing with TypeMismatch otherwise. -/
def coerceToml (ty : ConfigTy) (v : ConfigVal) : Except ConfigError ConfigVal :=
  match ty, v with
  | ConfigTy.text, ConfigVal.str s => Except.ok (ConfigVal.str s)
  | ConfigTy.integer, ConfigVal.intv n => Except.ok (ConfigVal.intv n)
  | ConfigTy.floatTy, ConfigVal.floatv q => Except.ok (ConfigVal.floatv q)
  | ConfigTy.floatTy, ConfigVal.intv n => Except.ok (ConfigVal.floatv (n : Rat))
  | ConfigTy.boolean, ConfigVal.boolv b => Except.ok (ConfigVal.boolv b)
  | _, _ => Except.error ConfigError.typeMismatch

/-- Modelled from the spec: the environment variable key for a field is
the prefix concatenated with the uppercased field name. -/
def envKey (pfx fieldName : String) : String :=
  pfx ++ strUpper fieldName

/-- Modelled from the spec: the configuration-file key for a field is the
declared name with every underscore replaced by a hyphen. -/
def fileKey (fieldName : String) : String :=
  String.mk (fieldName.toList.map (fun c => if c = '_' then '-' else c))

/-- One named, typed configuration field with an optional default, as the
spec data model declares. -/
structure FieldDescriptor where
  name : String
  declaredTy : ConfigTy
  defaultVal : Option ConfigVal
deriving DecidableEq

/-- Modelled from the spec: the file-or-default half of per-field
resolution, consulting the metadata table at the hyphenated key and
falling back to the declared default. -/
def resolveFromFile (file : List (String × ConfigVal)) (fd : FieldDescriptor) :
    Except ConfigError (Option ConfigVal) :=
  match assocGet file (fileKey fd.name) with
  | Option.some tv => (coerceToml fd.declaredTy tv).map Option.some
  | Option.none => Except.ok fd.defaultVal

/-- Modelled from the spec: per-field resolution with the fixed
precedence, a set and non-empty environment value winning over the file
value, which wins over the declared default; an empty environment value
counts as absent. -/
def resolveField (pfx : String) (env : String → Option String)
    (file : List (String × ConfigVal)) (fd : FieldDescriptor) :
    Except ConfigError (Option ConfigVal) :=
  match env (envKey pfx fd.name) with
  | Option.some v =>
      if v = "" then resolveFromFile file fd
      else (coerceEnv fd.declaredTy v).map Option.some
  | Option.none => resolveFromFile file fd

/-! ### Field schema introspector

The schema flattening over dataclass inheritance is performed by the
native core and the Python dataclass machinery, neither of which is under
src/; the definitions below are modelled from the spec. -/

/-- Modelled from the spec: a configuration declaration, either a base
declaration or a derived declaration on top of a parent, each with its
own ordered field list. -/
inductive Schema where
  | base (own : List FieldDescriptor)
  | derived (parent : Schema) (own : List FieldDescriptor)

/-- The names of a field list, in order. -/
def fieldNames (fs : List FieldDescriptor) : List String :=
  fs.map (fun f => f.name)

/-- Modelled from the spec: merge of flattened parent fields with the
fields a derived declaration adds: parent fields keep their positions
but an own field of the same name replaces the parent field entirely,
and own fields with fresh names follow in their declared order. -/
def mergeFields (parentFs own : List FieldDescriptor) : List FieldDescriptor :=
  parentFs.map (fun f =>
    match own.find? (fun g => g.name == f.name) with
    | Option.some g => g
    | Option.none => f)
  ++ own.filter (fun g => !(parentFs.any (fun f => f.name == g.name)))

/-- Modelled from the spec: flatten walks the declaration chain, merging
base first and derived on top. -/
def flatten : Schema → List FieldDescriptor
  | Schema.base own => own
  | Schema.derived p own => mergeFields (flatten p) own

/-- Well-formedness of a declaration chain: each level declares distinct
field names. -/
def Schema.wfNames : Schema → Prop
  | Schema.base own => (fieldNames own).Nodup
  | Schema.derived p own => (fieldNames own).Nodup ∧ p.wfNames

instance schemaWfDecidable : (s : Schema) → Decidable s.wfNames
  | Schema.base own => inferInstanceAs (Decidable ((fieldNames own).Nodup))
  | Schema.derived p own =>
      have : Decidable p.wfNames := schemaWfDecidable p
      inferInstanceAs (Decidable ((fieldNames own).Nodup ∧ p.wfNames))

/-! ### Mutator parameter system and the mutator decorator

The MutatorParam descriptor protocol and MutatorDescriptor class live in
the native core, not under src/; they are modelled from the spec. The
mutator decorator itself is Python source under src/ and is translated
directly. -/

/-- Modelled from the spec: a declared mutator parameter descriptor with
name, declared type (by name), description, default and optional
numeric bounds; immutable after declaration. -/
structure MutatorParam where
  pname : String
  ptype : String
  pdescription : Option String
  defaultValue : Option PyVal
  valueMin : Option PyVal
  valueMax : Option PyVal

/-- Modelled from the spec: the runtime state of a parameter holder
instance, either no binding attached yet or an attached override
mapping from parameter name to value. -/
structure ParamHolderState where
  overrides : Option (List (String × PyVal))

/-- Modelled from the spec: reading a declared parameter off the holder
returns the override value when the attached mapping contains the
parameter name and the declared default otherwise; with no binding
attached the read returns the declared default. -/
def readParam (st : ParamHolderState) (p : MutatorParam) : Option PyVal :=
  match st.overrides with
  | Option.none => p.defaultValue
  | Option.some m =>
      match assocGet m p.pname with
      | Option.some v => Option.some v
      | Option.none => p.defaultValue

/-- A declared attribute of a parameter-holder class: either a mutator
parameter descriptor or a plain value. -/
inductive HolderAttr where
  | mutParam (p : MutatorParam)
  | plainVal (v : PyVal)

/-- A parameter-holder class: an optional base class and its own
attribute dictionary in declaration order. -/
inductive HolderCls where
  | mk (parent : Option HolderCls) (decls : List (String × HolderAttr))

/-- The own attribute dictionary of a holder class, the model of its
Python dict attribute. -/
def HolderCls.decls : HolderCls → List (String × HolderAttr)
  | HolderCls.mk _ d => d

/-- The base class of a holder class. -/
def HolderCls.parent : HolderCls → Option HolderCls
  | HolderCls.mk b _ => b

/-- Modelled from the spec: the immutable aggregate the decorator
attaches, carrying the holder type, the collected parameter
descriptors and the supplied metadata. -/
structure MutatorDescriptor where
  paramsHolder : Option HolderCls
  paramDescriptors : List MutatorParam
  mName : Option String
  mDescription : Option String
  mLayer : Option String
  mGroup : Option String
  mOperation : Option String
  mStatefulness : Option String
  mOrgSegment : Option String
  mOrgMetadata : Option (List (String × PyVal))

/-- A declared attribute of a decorated mutator class: a plain value, a
parameter descriptor, or an attached mutator descriptor. -/
inductive ClsAttr where
  | plainVal (v : PyVal)
  | mutParam (p : MutatorParam)
  | descr (d : MutatorDescriptor)

/-- A decorated class modelled by its attribute dictionary in
declaration order. -/
structure PyCls where
  decls : List (String × ClsAttr)

/-- Translated from the decorator source: the loop over the holder
dictionary items appending every value that is a MutatorParam instance
to the accumulator. -/
def collectLoop : List (String × HolderAttr) → List MutatorParam → List MutatorParam
  | [], acc => acc
  | (_, a) :: rest, acc =>
      match a with
      | HolderAttr.mutParam q => collectLoop rest (acc ++ [q])
      | HolderAttr.plainVal _ => collectLoop rest acc

/-- Translated from the decorator source: param_descriptors starts empty
and the scan runs only when a params holder was supplied (a class object
is always truthy, None is falsy). -/
def collectParamDescriptors (paramsArg : Option HolderCls) : List MutatorParam :=
  match paramsArg with
  | Option.none => []
  | Option.some hp => collectLoop hp.decls []

/-- Translated from the decorator source: the MutatorDescriptor
construction from the params holder, the collected descriptors and the
supplied metadata. -/
def mkMutatorDescriptor (nm ds ly gp op st ons : Option String)
    (ocm : Option (List (String × PyVal))) (paramsArg : Option HolderCls) :
    MutatorDescriptor :=
  MutatorDescriptor.mk paramsArg (collectParamDescriptors paramsArg)
    nm ds ly gp op st ons ocm

/-- Dictionary update used to model attribute assignment on a class:
replace the value at an existing key in place, or append a new entry. -/
def assocSet (l : List (String × ClsAttr)) (k : String) (a : ClsAttr) :
    List (String × ClsAttr) :=
  match l with
  | [] => [(k, a)]
  | (k2, a2) :: rest =>
      if k2 == k then (k2, a) :: rest else (k2, a2) :: assocSet rest k a

/-- Translated from the decorator source: wrap builds the descriptor and
assigns it to the mutator-descriptor attribute of the decorated class,
returning the class. -/
def mutatorWrap (nm ds ly gp op st ons : Option String)
    (ocm : Option (List (String × PyVal))) (paramsArg : Option HolderCls)
    (cls : PyCls) : PyCls :=
  PyCls.mk (assocSet cls.decls "_mutator_descriptor"
    (ClsAttr.descr (mkMutatorDescriptor nm ds ly gp op st ons ocm paramsArg)))

/-! ### Lemmas about the UUID normalization chain -/

theorem replacePatFuel_eq_self (pat : List Char) (ch : Char) (hch : ch ∈ pat) :
    ∀ (f : Nat) (s : List Char), ch ∉ s → replacePatFuel pat f s = s := by
  intro f
  induction f with
  | zero => intro s _; cases s <;> rfl
  | succ f ih =>
    intro s hs
    cases s with
    | nil => rfl
    | cons c rest =>
      have hp : pat.isPrefixOf (c :: rest) = false := by
        rw [Bool.eq_false_iff]
        intro hpre
        have hsub : pat <+: c :: rest := List.isPrefixOf_iff_prefix.mp hpre
        exact hs (hsub.subset hch)
      simp only [replacePatFuel, hp, Bool.false_eq_true, if_false]
      rw [ih rest (fun h => hs (List.mem_cons_of_mem _ h))]

theorem replacePat_eq_self (pat : List Char) (ch : Char) (hch : ch ∈ pat)
    (s : List Char) (hs : ch ∉ s) : replacePat pat s = s :=
  replacePatFuel_eq_self pat ch hch s.length s hs

theorem replacePatFuel_singleton (ch : Char) :
    ∀ (f : Nat) (s : List Char), s.length ≤ f →
      replacePatFuel [ch] f s = s.filter (fun c => c ≠ ch) := by
  intro f
  induction f with
  | zero =>
    intro s hs
    have : s = [] := List.eq_nil_of_length_eq_zero (Nat.le_zero.mp hs)
    subst this; rfl
  | succ f ih =>
    intro s hs
    cases s with
    | nil => rfl
    | cons c rest =>
      have hlen : rest.length ≤ f := by
        simp only [List.length_cons] at hs; omega
      by_cases hc : ch = c
      · subst hc
        have hp : [ch].isPrefixOf (ch :: rest) = true := by
          simp [List.isPrefixOf]
        simp only [replacePatFuel, hp, if_true]
        rw [show (ch :: rest).drop [ch].length = rest from rfl]
        rw [ih rest hlen]
        simp [List.filter_cons]
      · have hp : [ch].isPrefixOf (c :: rest) = false := by
          simp [List.isPrefixOf]
          exact hc
        simp only [replacePatFuel, hp, Bool.false_eq_true, if_false,
          List.filter_cons]
        rw [ih rest hlen]
        have hne : c ≠ ch := fun h => hc h.symm
        simp [hne]

theorem replacePat_singleton (ch : Char) (s : List Char) :
    replacePat [ch] s = s.filter (fun c => c ≠ ch) :=
  replacePatFuel_singleton ch s.length s (Nat.le_refl _)

theorem dropWhile_eq_self_of_none (p : Char → Bool) (s : List Char)
    (h : ∀ c ∈ s, p c = false) : s.dropWhile p = s := by
  cases s with
  | nil => rfl
  | cons c rest =>
    rw [List.dropWhile_cons]
    simp [h c (List.mem_cons_self c rest)]

theorem pyStrip_eq_self (set s : List Char)
    (h : ∀ c ∈ s, set.contains c = false) : pyStrip set s = s := by
  unfold pyStrip
  rw [dropWhile_eq_self_of_none _ s h]
  rw [dropWhile_eq_self_of_none _ s.reverse
    (fun c hc => h c (List.mem_reverse.mp hc))]
  exact List.reverse_reverse s

theorem pyUuidHex_valid (t : String) (h : validUuidText t) :
    pyUuidHex t = Option.some (lowerHexNoHyphens t) := by
  obtain ⟨hall, hlen⟩ := h
  have hcolon : ':' ∉ t.toList := by
    intro hm
    rcases hall ':' hm with h1 | h1
    · exact absurd h1 (by decide)
    · exact absurd h1 (by decide)
  have e1 : replacePat ['u', 'r', 'n', ':'] t.toList = t.toList :=
    replacePat_eq_self _ ':' (by decide) _ hcolon
  have e2 : replacePat ['u', 'u', 'i', 'd', ':'] t.toList = t.toList :=
    replacePat_eq_self _ ':' (by decide) _ hcolon
  have e3 : pyStrip [Char.ofNat 123, Char.ofNat 125] t.toList = t.toList := by
    apply pyStrip_eq_self
    intro c hc
    rcases hall c hc with h1 | h1
    · subst h1; decide
    · have h2 : ¬ c = Char.ofNat 123 := by
        intro he; rw [he] at h1; exact absurd h1 (by decide)
      have h3 : ¬ c = Char.ofNat 125 := by
        intro he; rw [he] at h1; exact absurd h1 (by decide)
      simp [List.contains]
      exact ⟨h2, h3⟩
  have e4 : replacePat ['-'] t.toList = t.toList.filter (fun c => c ≠ '-') :=
    replacePat_singleton '-' t.toList
  have hhex : (t.toList.filter (fun c => c ≠ '-')).all isHexChar = true := by
    rw [List.all_eq_true]
    intro c hc
    have hm := List.mem_filter.mp hc
    rcases hall c hm.1 with h1 | h1
    · exfalso
      have := hm.2
      simp [h1] at this
    · exact h1
  simp only [pyUuidHex, e1, e2, e3, e4, hhex, hlen, lowerHexNoHyphens]
  simp

/-! ### Lemmas about the hex byte formatting and the trimming loop -/

theorem pyHexDigits_byte (b : Nat) (hb : b < 256) :
    pyHexDigits b = if b < 16 then [hexDigitChar b]
      else [hexDigitChar (b / 16), hexDigitChar (b % 16)] := by
  unfold pyHexDigits
  by_cases h16 : b < 16
  · rw [if_pos h16]
    cases b with
    | zero => rfl
    | succ n => simp [pyHexAux, h16]
  · rw [if_neg h16]
    obtain ⟨f, rfl⟩ : ∃ f, b = f + 1 := ⟨b - 1, by omega⟩
    simp only [pyHexAux, h16, if_false]
    obtain ⟨g, rfl⟩ : ∃ g, f = g + 1 := ⟨f - 1, by omega⟩
    have hq : (g + 1 + 1) / 16 < 16 := by omega
    simp [pyHexAux, hq]

theorem format02xInt_byte (b : Nat) (hb : b < 256) :
    format02xInt (Int.ofNat b) = specByteHex b := by
  unfold format02xInt specByteHex
  have hneg : ¬ ((Int.ofNat b) < 0) := by
    simp
  have habs : (Int.ofNat b).natAbs = b := rfl
  rw [if_neg hneg, habs, pyHexDigits_byte b hb]
  by_cases h16 : b < 16
  · rw [if_pos h16]
    have h1 : b / 16 = 0 := by omega
    have h2 : b % 16 = b := by omega
    have h0 : hexDigitChar 0 = '0' := by decide
    simp [h1, h2, h0, List.replicate]
  · rw [if_neg h16]
    simp [List.replicate]

theorem srcTrim_zero_cons (xs : List PyVal) :
    srcTrim (PyVal.int (Int.ofNat 0) :: xs) = srcTrim xs := by
  unfold srcTrim
  have hz : pyNeZero (PyVal.int (Int.ofNat 0)) = false := by decide
  simp only [pyFindIdx, hz, Bool.false_eq_true, if_false, List.length_cons]
  cases hfi : pyFindIdx pyNeZero xs with
  | none => simp
  | some i =>
    simp only [Option.map_some, Option.getD_some]
    by_cases hi : i = xs.length
    · simp [hi]
    · have hi2 : ¬ (i + 1 = xs.length + 1) := by omega
      simp [hi, hi2, List.drop_succ_cons]

theorem mapM_format_bytes (bs : List Nat) :
    (bs.map (fun b => PyVal.int (Int.ofNat b))).mapM pyFormat02x
      = Except.ok (bs.map (fun b => format02xInt (Int.ofNat b))) := by
  induction bs with
  | nil => rfl
  | cons b rest ih =>
    simp only [List.map_cons, List.mapM_cons, ih]
    rfl

theorem srcTrim_spec (bs : List Nat) (hb : ∀ b ∈ bs, b < 256) :
    srcTrim (bs.map (fun b => PyVal.int (Int.ofNat b)))
      = Except.ok (specTrimmedHex bs) := by
  induction bs with
  | nil => rfl
  | cons b rest ih =>
    by_cases hz : b = 0
    · subst hz
      rw [List.map_cons]
      rw [srcTrim_zero_cons]
      rw [ih (fun x hx => hb x (List.mem_cons_of_mem _ hx))]
      have hspec : specTrimmedHex (0 :: rest) = specTrimmedHex rest := by
        unfold specTrimmedHex
        simp
      rw [hspec]
    · rw [List.map_cons]
      unfold srcTrim
      have hne : pyNeZero (PyVal.int (Int.ofNat b)) = true := by
        simp [pyNeZero]
        omega
      simp only [pyFindIdx, hne, if_true, Option.getD_some, List.length_cons]
      have hlen : ¬ ((0 : Nat) = (rest.map (fun b => PyVal.int (Int.ofNat b))).length + 1) := by
        omega
      rw [if_neg hlen]
      rw [List.drop_zero]
      rw [show PyVal.int (Int.ofNat b) :: List.map (fun b => PyVal.int (Int.ofNat b)) rest
            = List.map (fun b => PyVal.int (Int.ofNat b)) (b :: rest) from rfl]
      rw [mapM_format_bytes (b :: rest)]
      unfold specTrimmedHex
      have hall : ((b :: rest).all (fun x => x == 0)) = false := by
        simp [List.all_cons, hz]
      simp only [hall, Bool.false_eq_true, if_false]
      have hdw : (b :: rest).dropWhile (fun x => x == 0) = b :: rest := by
        rw [List.dropWhile_cons]
        simp [hz]
      rw [hdw]
      have hmap : List.map (fun x => format02xInt (Int.ofNat x)) (b :: rest)
          = List.map specByteHex (b :: rest) :=
        List.map_congr_left (fun x hx => format02xInt_byte x (hb x hx))
      rw [hmap]

theorem format_json_attr_val_dict (kvs : List (String × PyVal)) :
    format_json_attr_val (PyVal.dict kvs)
      = (match formatTry (PyVal.dict kvs) with
         | Except.ok s => Except.ok s
         | Except.error PyErr.typeError => Except.ok (pyStr (PyVal.dict kvs))
         | Except.error e => Except.error e) := rfl

theorem formatTry_ec (ts : String) (xs : List PyVal) :
    formatTry (PyVal.dict [("EventCoordinate",
        PyVal.dict [("timeline_id", PyVal.str ts), ("id", PyVal.list xs)])])
      = (match pyUuidHex ts with
         | Option.none => Except.error PyErr.valueError
         | Option.some hex =>
             match srcTrim xs with
             | Except.error e => Except.error e
             | Except.ok tail => Except.ok (hex ++ ":" ++ tail)) := rfl

/-- C1 counterexample: the claim asserts the UUID component is the hex
digits of the timeline id with hyphens removed, but on valid uppercase
UUID text the code emits the digits lowercased, so the asserted output
differs from the actual output at this input. -/
theorem c1_counterexample :
    validUuidText "91E77012-D22B-4653-AAF7-EBA525711637" ∧
    format_json_attr_val (ecVal "91E77012-D22B-4653-AAF7-EBA525711637" [1])
      = Except.ok "91e77012d22b4653aaf7eba525711637:01" ∧
    "91e77012d22b4653aaf7eba525711637:01"
      ≠ removeHyphens "91E77012-D22B-4653-AAF7-EBA525711637" ++ ":"
          ++ specTrimmedHex [1] :=
  ⟨by decide, rfl, by decide⟩

/-- C1 (amended): for every EventCoordinate input whose timeline_id is
valid UUID text (hex digits and hyphens, 32 digits total) and whose id is
a list of bytes, format_json_attr_val returns the 32 hex digits of the
timeline id, lowercased with hyphens removed, then a colon, then the
single character 0 when every byte is zero and otherwise the lowercase
two-digit-per-byte hex encoding of the suffix starting at the first
non-zero byte. -/
theorem c1_eventCoordinate_format (t : String) (bs : List Nat)
    (h1 : validUuidText t) (h2 : ∀ b ∈ bs, b < 256) :
    format_json_attr_val (ecVal t bs)
      = Except.ok (lowerHexNoHyphens t ++ ":" ++ specTrimmedHex bs) := by
  have hu := pyUuidHex_valid t h1
  have hs := srcTrim_spec bs h2
  unfold ecVal
  rw [format_json_attr_val_dict, formatTry_ec, hu, hs]

/-- C1 witness: the amended theorem applied at the concrete input of the
repository test suite. -/
theorem c1_eventCoordinate_format_witness :
    validUuidText "91e77012-d22b-4653-aaf7-eba525711637" ∧
    (∀ b ∈ [(0 : Nat), 0, 0, 0, 0, 0, 0, 0, 1, 2, 3, 4, 5, 6, 7, 8], b < 256) ∧
    format_json_attr_val
        (ecVal "91e77012-d22b-4653-aaf7-eba525711637"
          [0, 0, 0, 0, 0, 0, 0, 0, 1, 2, 3, 4, 5, 6, 7, 8])
      = Except.ok (lowerHexNoHyphens "91e77012-d22b-4653-aaf7-eba525711637"
          ++ ":" ++ specTrimmedHex [0, 0, 0, 0, 0, 0, 0, 0, 1, 2, 3, 4, 5, 6, 7, 8]) :=
  ⟨by decide, by decide,
    c1_eventCoordinate_format "91e77012-d22b-4653-aaf7-eba525711637"
      [0, 0, 0, 0, 0, 0, 0, 0, 1, 2, 3, 4, 5, 6, 7, 8] (by decide) (by decide)⟩

/-- True when the value answers true to one of the four tag membership
tests of the formatter, with a raising test counting as no match. -/
def matchesTag (tag : String) (v : PyVal) : Bool :=
  match pyIn tag v with
  | Except.ok b => b
  | Except.error _ => false

/-- The hypothesis of the totality claim: the value matches none of the
four known tags. -/
def noKnownTag (v : PyVal) : Prop :=
  matchesTag "TimelineId" v = false ∧ matchesTag "BigInt" v = false ∧
    matchesTag "Timestamp" v = false ∧ matchesTag "EventCoordinate" v = false

instance (v : PyVal) : Decidable (noKnownTag v) := by
  unfold noKnownTag; infer_instance

/-- C3: format_json_attr_val never raises on inputs matching none of the
four known tags; such inputs are formatted by generic stringification,
and in particular the booleans format to True and False. -/
theorem c3_total_stringification :
    (∀ v : PyVal, noKnownTag v → format_json_attr_val v = Except.ok (pyStr v)) ∧
    format_json_attr_val (PyVal.bool true) = Except.ok "True" ∧
    format_json_attr_val (PyVal.bool false) = Except.ok "False" := by
  refine ⟨?_, by simp [format_json_attr_val, formatTry, pyIn, pyStr, pyRepr],
    by simp [format_json_attr_val, formatTry, pyIn, pyStr, pyRepr]⟩
  intro v h
  obtain ⟨h1, h2, h3, h4⟩ := h
  cases v with
  | str s => rfl
  | int n => rfl
  | bool b => rfl
  | float lit => rfl
  | none => rfl
  | dict kvs =>
    simp only [matchesTag, pyIn] at h1 h2 h3 h4
    simp only [format_json_attr_val, formatTry, pyIn, h1, h2, h3, h4]
  | list xs =>
    simp only [matchesTag, pyIn] at h1 h2 h3 h4
    simp only [format_json_attr_val, formatTry, pyIn, h1, h2, h3, h4]

/-- C3 witness: the totality theorem applied to a dict with an
unrecognized key, whose formatting is the generic stringification. -/
theorem c3_total_stringification_witness :
    noKnownTag (PyVal.dict [("foo", PyVal.int 1)]) ∧
    format_json_attr_val (PyVal.dict [("foo", PyVal.int 1)])
      = Except.ok (pyStr (PyVal.dict [("foo", PyVal.int 1)])) :=
  ⟨by decide, c3_total_stringification.1 (PyVal.dict [("foo", PyVal.int 1)]) (by decide)⟩

/-- C4: the formatter is the identity on embedded strings for the
passthrough variants: bare text, BigInt, Timestamp and TimelineId all
return the embedded string unchanged, hyphens and digits untouched. -/
theorem c4_passthrough_identity (s u : String) :
    format_json_attr_val (PyVal.str s) = Except.ok s ∧
    format_json_attr_val (PyVal.dict [("BigInt", PyVal.str s)]) = Except.ok s ∧
    format_json_attr_val (PyVal.dict [("Timestamp", PyVal.str s)]) = Except.ok s ∧
    format_json_attr_val (PyVal.dict [("TimelineId", PyVal.str u)]) = Except.ok u :=
  ⟨rfl, rfl, rfl, rfl⟩

/-- C2: per-field resolution precedence is fixed: a set and non-empty
environment value wins over a file value, which wins over the declared
default; with neither source set and no default the field resolves to
absent. -/
theorem c2_resolution_precedence (pfx : String) (env : String → Option String)
    (file : List (String × ConfigVal)) (fd : FieldDescriptor) :
    (∀ v, env (envKey pfx fd.name) = Option.some v → v ≠ "" →
       resolveField pfx env file fd = (coerceEnv fd.declaredTy v).map Option.some) ∧
    ((env (envKey pfx fd.name) = Option.none ∨ env (envKey pfx fd.name) = Option.some "") →
       (∀ tv, assocGet file (fileKey fd.name) = Option.some tv →
          resolveField pfx env file fd = (coerceToml fd.declaredTy tv).map Option.some) ∧
       (assocGet file (fileKey fd.name) = Option.none →
          resolveField pfx env file fd = Except.ok fd.defaultVal) ∧
       (assocGet file (fileKey fd.name) = Option.none → fd.defaultVal = Option.none →
          resolveField pfx env file fd = Except.ok Option.none)) := by
  constructor
  · intro v hv hne
    unfold resolveField
    rw [hv]
    simp [hne]
  · intro henv
    have hfile : resolveField pfx env file fd = resolveFromFile file fd := by
      unfold resolveField
      rcases henv with h | h
      · rw [h]
      · rw [h]
        simp
    refine ⟨?_, ?_, ?_⟩
    · intro tv htv
      rw [hfile]
      unfold resolveFromFile
      rw [htv]
    · intro hnone
      rw [hfile]
      unfold resolveFromFile
      rw [hnone]
    · intro hnone hdef
      rw [hfile]
      unfold resolveFromFile
      rw [hnone, hdef]

/-- C2 witness: with the environment, the file table and a default all
supplying a value for str_val, resolution returns the environment
value. -/
theorem c2_resolution_precedence_witness :
    resolveField "TEST_"
        (fun k => if k == "TEST_STR_VAL" then Option.some "estr" else Option.none)
        [("str-val", ConfigVal.str "str")]
        ⟨"str_val", ConfigTy.text, Option.some (ConfigVal.str "dflt")⟩
      = Except.ok (Option.some (ConfigVal.str "estr")) :=
  ((c2_resolution_precedence "TEST_"
      (fun k => if k == "TEST_STR_VAL" then Option.some "estr" else Option.none)
      [("str-val", ConfigVal.str "str")]
      ⟨"str_val", ConfigTy.text, Option.some (ConfigVal.str "dflt")⟩).1
    "estr" rfl (by decide)).trans rfl

/-- C6: the environment key for a field is the prefix concatenated with
the uppercased field name, the file key is the declared name with
underscores replaced by hyphens, and the resolver consults the
environment and the file only at those keys. -/
theorem c6_key_derivation :
    envKey "TEST_" "str_val" = "TEST_STR_VAL" ∧
    fileKey "str_val" = "str-val" ∧
    (∀ (pfx : String) (env env2 : String → Option String)
       (file : List (String × ConfigVal)) (fd : FieldDescriptor),
       env (envKey pfx fd.name) = env2 (envKey pfx fd.name) →
       resolveField pfx env file fd = resolveField pfx env2 file fd) ∧
    (∀ (pfx : String) (env : String → Option String)
       (file file2 : List (String × ConfigVal)) (fd : FieldDescriptor),
       assocGet file (fileKey fd.name) = assocGet file2 (fileKey fd.name) →
       resolveField pfx env file fd = resolveField pfx env file2 fd) := by
  refine ⟨by decide, by decide, ?_, ?_⟩
  · intro pfx env env2 file fd h
    unfold resolveField
    rw [h]
  · intro pfx env file file2 fd h
    have hf : resolveFromFile file fd = resolveFromFile file2 fd := by
      unfold resolveFromFile
      rw [h]
    unfold resolveField
    rw [hf]

/-- C6 witness: two environments agreeing at the derived key
TEST_STR_VAL resolve identically, by the theorem at a concrete field. -/
theorem c6_key_derivation_witness :
    resolveField "TEST_"
        (fun k => if k == "TEST_STR_VAL" then Option.some "a" else Option.none)
        [] ⟨"str_val", ConfigTy.text, Option.none⟩
      = resolveField "TEST_" (fun _ => Option.some "a")
        [] ⟨"str_val", ConfigTy.text, Option.none⟩ :=
  c6_key_derivation.2.2.1 "TEST_"
    (fun k => if k == "TEST_STR_VAL" then Option.some "a" else Option.none)
    (fun _ => Option.some "a") [] ⟨"str_val", ConfigTy.text, Option.none⟩ rfl

/-- C5: reading a declared parameter returns the override value when the
attached binding contains the parameter name, the declared default when
it does not, and the declared default when no binding is attached,
without any unbound failure. -/
theorem c5_param_read (p : MutatorParam) (m : List (String × PyVal)) (v : PyVal) :
    readParam ⟨Option.none⟩ p = p.defaultValue ∧
    (assocGet m p.pname = Option.some v →
       readParam ⟨Option.some m⟩ p = Option.some v) ∧
    (assocGet m p.pname = Option.none →
       readParam ⟨Option.some m⟩ p = p.defaultValue) := by
  refine ⟨rfl, ?_, ?_⟩ <;> intro h <;> simp [readParam, h]

/-- C5 witness: the parameter of the repository test, default 7.0; the
pre-binding read returns the default and the read after attaching the
override mapping returns 42.0. -/
theorem c5_param_read_witness :
    readParam ⟨Option.none⟩
        ⟨"p", "float", Option.some "My special parameter",
          Option.some (PyVal.float "7.0"), Option.some (PyVal.float "2.0"),
          Option.some (PyVal.float "99.0")⟩
      = Option.some (PyVal.float "7.0") ∧
    readParam ⟨Option.some [("p", PyVal.float "42.0")]⟩
        ⟨"p", "float", Option.some "My special parameter",
          Option.some (PyVal.float "7.0"), Option.some (PyVal.float "2.0"),
          Option.some (PyVal.float "99.0")⟩
      = Option.some (PyVal.float "42.0") :=
  ⟨(c5_param_read ⟨"p", "float", Option.some "My special parameter",
      Option.some (PyVal.float "7.0"), Option.some (PyVal.float "2.0"),
      Option.some (PyVal.float "99.0")⟩ [] (PyVal.float "42.0")).1.trans rfl,
   (c5_param_read ⟨"p", "float", Option.some "My special parameter",
      Option.some (PyVal.float "7.0"), Option.some (PyVal.float "2.0"),
      Option.some (PyVal.float "99.0")⟩ [("p", PyVal.float "42.0")]
      (PyVal.float "42.0")).2.1 rfl⟩

/-! ### Lemmas about schema flattening -/

theorem mergeName (own : List FieldDescriptor) (f : FieldDescriptor) :
    FieldDescriptor.name
      (match own.find? (fun g => g.name == f.name) with
       | Option.some g => g
       | Option.none => f) = f.name := by
  cases hfind : own.find? (fun g => g.name == f.name) with
  | none => rfl
  | some g =>
    have h := List.find?_some hfind
    simpa using h

theorem fieldNames_mergeFields (b d : List FieldDescriptor) :
    fieldNames (mergeFields b d)
      = fieldNames b
        ++ fieldNames (d.filter (fun g => !(b.any (fun f => f.name == g.name)))) := by
  unfold mergeFields fieldNames
  rw [List.map_append]
  congr 1
  rw [List.map_map]
  apply List.map_congr_left
  intro f _
  simp only [Function.comp]
  exact mergeName d f

theorem flatten_nodup (s : Schema) (h : s.wfNames) :
    (fieldNames (flatten s)).Nodup := by
  induction s with
  | base own => exact h
  | derived p own ih =>
    obtain ⟨hown, hp⟩ := h
    have hpn := ih hp
    show (fieldNames (mergeFields (flatten p) own)).Nodup
    rw [fieldNames_mergeFields]
    refine List.Nodup.append hpn ?_ ?_
    · have hsub : List.Sublist
          ((own.filter
            (fun g => !((flatten p).any (fun f => f.name == g.name)))).map
              (fun f => f.name))
          (own.map (fun f => f.name)) :=
        (List.filter_sublist own).map (fun f => f.name)
      exact hown.sublist hsub
    · intro a ha hamem
      obtain ⟨g, hg, hgname⟩ := List.mem_map.mp hamem
      have hgf := List.mem_filter.mp hg
      obtain ⟨f, hf, hfname⟩ := List.mem_map.mp ha
      have hany : (flatten p).any (fun f2 => f2.name == g.name) = true :=
        List.any_eq_true.mpr ⟨f, hf, by rw [hfname, hgname]; exact beq_self_eq_true a⟩
      have := hgf.2
      rw [hany] at this
      exact absurd this (by decide)

theorem find?_unique (l : List FieldDescriptor) (x : String) (fld : FieldDescriptor)
    (h : (fieldNames l).Nodup) (hmem : fld ∈ l) (hname : fld.name = x) :
    l.find? (fun g => g.name == x) = Option.some fld := by
  induction l with
  | nil => cases hmem
  | cons a rest ih =>
    have h2 : (a.name :: fieldNames rest).Nodup := by
      simpa [fieldNames] using h
    by_cases ha : a.name = x
    · rw [List.find?_cons_of_pos _ (by simp [ha])]
      rcases List.mem_cons.mp hmem with rfl | hmr
      · rfl
      · exfalso
        have hx : x ∈ fieldNames rest := List.mem_map.mpr ⟨fld, hmr, hname⟩
        have hni := (List.nodup_cons.mp h2).1
        rw [ha] at hni
        exact hni hx
    · rw [List.find?_cons_of_neg _ (by simp [ha])]
      apply ih
      · have := (List.nodup_cons.mp h2).2
        simpa [fieldNames] using this
      · rcases List.mem_cons.mp hmem with rfl | hmr
        · exact absurd hname ha
        · exact hmr

theorem mapped_filter_nil (own : List FieldDescriptor) (x : String) :
    ∀ (pfs : List FieldDescriptor), x ∉ fieldNames pfs →
      (pfs.map (fun f =>
        match own.find? (fun g => g.name == f.name) with
        | Option.some g => g
        | Option.none => f)).filter (fun g => g.name == x) = [] := by
  intro pfs
  induction pfs with
  | nil => intro _; rfl
  | cons a rest ih =>
    intro hx
    have hxa : ¬ (a.name = x) := by
      intro he
      exact hx (List.mem_map.mpr ⟨a, List.mem_cons_self a rest, he⟩)
    have hxr : x ∉ fieldNames rest := by
      intro he
      obtain ⟨f, hf, hfn⟩ := List.mem_map.mp he
      exact hx (List.mem_map.mpr ⟨f, List.mem_cons_of_mem _ hf, hfn⟩)
    rw [List.map_cons, List.filter_cons]
    have hcond : (FieldDescriptor.name
        (match own.find? (fun g => g.name == a.name) with
         | Option.some g => g
         | Option.none => a) == x) = false := by
      rw [mergeName own a]
      simp [hxa]
    rw [hcond]
    simp only [Bool.false_eq_true, if_false]
    exact ih hxr

theorem mapped_filter_eq (own : List FieldDescriptor) (x : String)
    (fld : FieldDescriptor)
    (hfind : own.find? (fun g => g.name == x) = Option.some fld) :
    ∀ (pfs : List FieldDescriptor), (fieldNames pfs).Nodup → x ∈ fieldNames pfs →
      (pfs.map (fun f =>
        match own.find? (fun g => g.name == f.name) with
        | Option.some g => g
        | Option.none => f)).filter (fun g => g.name == x) = [fld] := by
  intro pfs
  induction pfs with
  | nil =>
    intro _ hx
    simp [fieldNames] at hx
  | cons a rest ih =>
    intro hnd hx
    have h2 : (a.name :: fieldNames rest).Nodup := by
      simpa [fieldNames] using hnd
    rw [List.map_cons, List.filter_cons]
    by_cases hax : a.name = x
    · have hh : (match own.find? (fun g => g.name == a.name) with
          | Option.some g => g
          | Option.none => a) = fld := by
        rw [hax, hfind]
      rw [hh]
      have hcond : (fld.name == x) = true := by
        have := List.find?_some hfind
        simpa using this
      rw [hcond]
      simp only [if_true]
      have hxr : x ∉ fieldNames rest := by
        have hni := (List.nodup_cons.mp h2).1
        rw [hax] at hni
        exact hni
      rw [mapped_filter_nil own x rest hxr]
    · have hcond : (FieldDescriptor.name
          (match own.find? (fun g => g.name == a.name) with
           | Option.some g => g
           | Option.none => a) == x) = false := by
        rw [mergeName own a]
        simp [hax]
      rw [hcond]
      simp only [Bool.false_eq_true, if_false]
      apply ih
      · have := (List.nodup_cons.mp h2).2
        simpa [fieldNames] using this
      · have hx2 : x ∈ a.name :: fieldNames rest := by
          simpa [fieldNames] using hx
        rcases List.mem_cons.mp hx2 with h | h
        · exact absurd h.symm hax
        · exact h

theorem own_part_filter_nil (b own : List FieldDescriptor) (x : String)
    (hx : x ∈ fieldNames b) :
    ((own.filter (fun g => !(b.any (fun f => f.name == g.name)))).filter
      (fun g => g.name == x)) = [] := by
  rw [List.filter_eq_nil_iff]
  intro g hg
  have hgf := List.mem_filter.mp hg
  intro hgx
  have hgxeq : g.name = x := by
    simpa using hgx
  obtain ⟨f, hf, hfx⟩ := List.mem_map.mp hx
  have hany : b.any (fun f2 => f2.name == g.name) = true :=
    List.any_eq_true.mpr ⟨f, hf, by rw [hfx, hgxeq]; exact beq_self_eq_true x⟩
  have := hgf.2
  rw [hany] at this
  exact absurd this (by decide)

/-- C7: flattening a derived declaration that overrides a field declared
in its base yields exactly one descriptor of that name, the derived one
with its type and default, and the flattened names are unique. -/
theorem c7_flatten_override (p : Schema) (own : List FieldDescriptor)
    (fld : FieldDescriptor) (hwf : (Schema.derived p own).wfNames)
    (hmem : fld ∈ own) (hdecl : fld.name ∈ fieldNames (flatten p)) :
    (flatten (Schema.derived p own)).filter (fun g => g.name == fld.name) = [fld] ∧
    (fieldNames (flatten (Schema.derived p own))).Nodup := by
  obtain ⟨hown, hp⟩ := hwf
  have hpn := flatten_nodup p hp
  constructor
  · show (mergeFields (flatten p) own).filter (fun g => g.name == fld.name) = [fld]
    unfold mergeFields
    rw [List.filter_append]
    have hfind : own.find? (fun g => g.name == fld.name) = Option.some fld :=
      find?_unique own fld.name fld hown hmem rfl
    rw [mapped_filter_eq own fld.name fld hfind (flatten p) hpn hdecl]
    rw [own_part_filter_nil (flatten p) own fld.name hdecl]
    simp
  · exact flatten_nodup (Schema.derived p own) ⟨hown, hp⟩

/-- C7 witness: a base declaring x as integer and y, and a derived
declaration overriding x as text; the flattened schema holds exactly the
derived x. -/
theorem c7_flatten_override_witness :
    (flatten (Schema.derived
        (Schema.base [⟨"x", ConfigTy.integer, Option.some (ConfigVal.intv 1)⟩,
                      ⟨"y", ConfigTy.text, Option.none⟩])
        [⟨"x", ConfigTy.text, Option.some (ConfigVal.str "d")⟩])).filter
      (fun g => g.name == "x")
      = [⟨"x", ConfigTy.text, Option.some (ConfigVal.str "d")⟩] ∧
    (fieldNames (flatten (Schema.derived
        (Schema.base [⟨"x", ConfigTy.integer, Option.some (ConfigVal.intv 1)⟩,
                      ⟨"y", ConfigTy.text, Option.none⟩])
        [⟨"x", ConfigTy.text, Option.some (ConfigVal.str "d")⟩]))).Nodup :=
  c7_flatten_override
    (Schema.base [⟨"x", ConfigTy.integer, Option.some (ConfigVal.intv 1)⟩,
                  ⟨"y", ConfigTy.text, Option.none⟩])
    [⟨"x", ConfigTy.text, Option.some (ConfigVal.str "d")⟩]
    ⟨"x", ConfigTy.text, Option.some (ConfigVal.str "d")⟩
    (by decide) (by decide) (by decide)

/-! ### Lemmas about the mutator decorator -/

theorem collectLoop_eq (items : List (String × HolderAttr))
    (acc : List MutatorParam) :
    collectLoop items acc = acc ++ items.filterMap (fun kv =>
      match kv.2 with
      | HolderAttr.mutParam q => Option.some q
      | HolderAttr.plainVal _ => Option.none) := by
  induction items generalizing acc with
  | nil => simp [collectLoop]
  | cons kv rest ih =>
    obtain ⟨k, a⟩ := kv
    cases a with
    | mutParam q =>
      rw [show collectLoop ((k, HolderAttr.mutParam q) :: rest) acc
            = collectLoop rest (acc ++ [q]) from rfl]
      rw [ih]
      simp [List.filterMap_cons]
    | plainVal v =>
      rw [show collectLoop ((k, HolderAttr.plainVal v) :: rest) acc
            = collectLoop rest acc from rfl]
      rw [ih]
      simp [List.filterMap_cons]

/-- C8: the descriptor the decorator aggregates keeps exactly the holder
attributes that are parameter descriptors, in declaration order, along
with the holder type itself and the supplied metadata. -/
theorem c8_descriptor_aggregation (nm ds ly gp op st ons : Option String)
    (ocm : Option (List (String × PyVal))) (hp : HolderCls) :
    (mkMutatorDescriptor nm ds ly gp op st ons ocm (Option.some hp)).paramDescriptors
      = hp.decls.filterMap (fun kv =>
          match kv.2 with
          | HolderAttr.mutParam q => Option.some q
          | HolderAttr.plainVal _ => Option.none) ∧
    (∀ q, q ∈ (mkMutatorDescriptor nm ds ly gp op st ons ocm
                  (Option.some hp)).paramDescriptors
        ↔ ∃ k, (k, HolderAttr.mutParam q) ∈ hp.decls) ∧
    (mkMutatorDescriptor nm ds ly gp op st ons ocm (Option.some hp)).paramsHolder
      = Option.some hp ∧
    (mkMutatorDescriptor nm ds ly gp op st ons ocm (Option.some hp)).mName = nm ∧
    (mkMutatorDescriptor nm ds ly gp op st ons ocm (Option.some hp)).mDescription = ds ∧
    (mkMutatorDescriptor nm ds ly gp op st ons ocm (Option.some hp)).mLayer = ly ∧
    (mkMutatorDescriptor nm ds ly gp op st ons ocm (Option.some hp)).mGroup = gp ∧
    (mkMutatorDescriptor nm ds ly gp op st ons ocm (Option.some hp)).mOperation = op ∧
    (mkMutatorDescriptor nm ds ly gp op st ons ocm (Option.some hp)).mStatefulness = st ∧
    (mkMutatorDescriptor nm ds ly gp op st ons ocm (Option.some hp)).mOrgSegment = ons ∧
    (mkMutatorDescriptor nm ds ly gp op st ons ocm (Option.some hp)).mOrgMetadata = ocm := by
  have hcoll : (mkMutatorDescriptor nm ds ly gp op st ons ocm
      (Option.some hp)).paramDescriptors
      = hp.decls.filterMap (fun kv =>
          match kv.2 with
          | HolderAttr.mutParam q => Option.some q
          | HolderAttr.plainVal _ => Option.none) := by
    show collectLoop hp.decls [] = _
    rw [collectLoop_eq]
    simp
  refine ⟨hcoll, ?_, rfl, rfl, rfl, rfl, rfl, rfl, rfl, rfl, rfl⟩
  intro q
  rw [hcoll, List.mem_filterMap]
  constructor
  · rintro ⟨⟨k, a⟩, hmem, heq⟩
    cases a with
    | mutParam q2 =>
      simp only [Option.some.injEq] at heq
      exact ⟨k, heq ▸ hmem⟩
    | plainVal v => simp at heq
  · rintro ⟨k, hmem⟩
    exact ⟨(k, HolderAttr.mutParam q), hmem, rfl⟩

/-- C8 witness: the decorator aggregation at the holder of the
repository test, one parameter and one plain attribute. -/
theorem c8_descriptor_aggregation_witness :
    (mkMutatorDescriptor (Option.some "MyMutator")
        (Option.some "My special mutator") Option.none Option.none
        (Option.some "corrupt") Option.none (Option.some "mycorp")
        (Option.some [("my_key", PyVal.str "my_val")])
        (Option.some (HolderCls.mk Option.none
          [("p", HolderAttr.mutParam
              ⟨"p", "float", Option.some "My special parameter",
                Option.some (PyVal.float "7.0"), Option.some (PyVal.float "2.0"),
                Option.some (PyVal.float "99.0")⟩),
           ("doc", HolderAttr.plainVal (PyVal.str "docstring"))]))).paramDescriptors
      = [⟨"p", "float", Option.some "My special parameter",
          Option.some (PyVal.float "7.0"), Option.some (PyVal.float "2.0"),
          Option.some (PyVal.float "99.0")⟩] :=
  ((c8_descriptor_aggregation (Option.some "MyMutator")
      (Option.some "My special mutator") Option.none Option.none
      (Option.some "corrupt") Option.none (Option.some "mycorp")
      (Option.some [("my_key", PyVal.str "my_val")])
      (HolderCls.mk Option.none
        [("p", HolderAttr.mutParam
            ⟨"p", "float", Option.some "My special parameter",
              Option.some (PyVal.float "7.0"), Option.some (PyVal.float "2.0"),
              Option.some (PyVal.float "99.0")⟩),
         ("doc", HolderAttr.plainVal (PyVal.str "docstring"))])).1).trans rfl

theorem assocGet_assocSet_self (l : List (String × ClsAttr)) (k : String)
    (a : ClsAttr) : assocGet (assocSet l k a) k = Option.some a := by
  induction l with
  | nil => simp [assocSet, assocGet]
  | cons kv rest ih =>
    obtain ⟨k2, a2⟩ := kv
    by_cases hk : k2 == k
    · simp [assocSet, assocGet, hk]
    · simp only [assocSet, hk, Bool.false_eq_true, if_false]
      simp only [assocGet, List.find?_cons, hk]
      exact ih

theorem assocGet_assocSet_other (l : List (String × ClsAttr)) (k k2 : String)
    (a : ClsAttr) (h : ¬ (k2 == k) = true) :
    assocGet (assocSet l k a) k2 = assocGet l k2 := by
  induction l with
  | nil =>
    simp only [assocSet, assocGet, List.find?_cons, List.find?_nil]
    have hkk : (k == k2) = false := by
      rw [beq_eq_false_iff_ne]
      intro e
      subst e
      exact h (by simp)
    simp [hkk]
  | cons kv rest ih =>
    obtain ⟨k3, a3⟩ := kv
    by_cases hk : k3 == k
    · have hk3 : ¬ (k3 == k2) = true := by
        intro he
        have e1 : k3 = k := by simpa using hk
        have e2 : k3 = k2 := by simpa using he
        have e3 : k2 = k := by rw [← e2, e1]
        exact h (by simp [e3])
      simp [assocSet, assocGet, hk, hk3]
    · simp only [assocSet, hk, Bool.false_eq_true, if_false]
      simp only [assocGet, List.find?_cons]
      cases hk3 : (k3 == k2) with
      | true => simp
      | false => exact ih

/-- C9: the decorator returns the decorated class with every attribute
other than the mutator-descriptor slot unchanged, the descriptor slot
set to the aggregated descriptor, and an empty parameter list when no
params holder is supplied. -/
theorem c9_decorator_frame (nm ds ly gp op st ons : Option String)
    (ocm : Option (List (String × PyVal))) (paramsArg : Option HolderCls)
    (cls : PyCls) :
    (∀ k, k ≠ "_mutator_descriptor" →
       assocGet (mutatorWrap nm ds ly gp op st ons ocm paramsArg cls).decls k
         = assocGet cls.decls k) ∧
    assocGet (mutatorWrap nm ds ly gp op st ons ocm paramsArg cls).decls
        "_mutator_descriptor"
      = Option.some (ClsAttr.descr
          (mkMutatorDescriptor nm ds ly gp op st ons ocm paramsArg)) ∧
    (paramsArg = Option.none →
       (mkMutatorDescriptor nm ds ly gp op st ons ocm paramsArg).paramDescriptors
         = []) := by
  refine ⟨?_, ?_, ?_⟩
  · intro k hk
    show assocGet (assocSet cls.decls "_mutator_descriptor" _) k = _
    apply assocGet_assocSet_other
    simpa using hk
  · exact assocGet_assocSet_self cls.decls "_mutator_descriptor" _
  · intro h
    subst h
    rfl

/-- C9 witness: wrapping a class holding an inject method leaves that
attribute unchanged, by the frame theorem at the key inject. -/
theorem c9_decorator_frame_witness :
    assocGet (mutatorWrap (Option.some "MyMutator") Option.none Option.none
        Option.none Option.none Option.none Option.none Option.none Option.none
        (PyCls.mk [("inject", ClsAttr.plainVal (PyVal.str "method"))])).decls
        "inject"
      = assocGet [("inject", ClsAttr.plainVal (PyVal.str "method"))] "inject" :=
  (c9_decorator_frame (Option.some "MyMutator") Option.none Option.none
      Option.none Option.none Option.none Option.none Option.none Option.none
      (PyCls.mk [("inject", ClsAttr.plainVal (PyVal.str "method"))])).1
    "inject" (by decide)

/-- C10: the decorator scans only the own dictionary of the params
holder, so a parameter declared on the base class of the holder and not
redeclared on the holder itself is absent from the collected list. -/
theorem c10_no_inherited_params (nm ds ly gp op st ons : Option String)
    (ocm : Option (List (String × PyVal))) (parentCls : HolderCls)
    (own : List (String × HolderAttr)) (q : MutatorParam) (k : String)
    (hq : (k, HolderAttr.mutParam q) ∈ parentCls.decls)
    (hnot : ∀ k2, (k2, HolderAttr.mutParam q) ∉ own) :
    q ∉ (mkMutatorDescriptor nm ds ly gp op st ons ocm
          (Option.some (HolderCls.mk (Option.some parentCls) own))).paramDescriptors := by
  intro hmem
  have hmem2 : q ∈ collectLoop own [] := hmem
  rw [collectLoop_eq, List.nil_append] at hmem2
  obtain ⟨⟨k2, a⟩, hkv, heq⟩ := List.mem_filterMap.mp hmem2
  cases a with
  | mutParam q2 =>
    simp only [Option.some.injEq] at heq
    subst heq
    exact hnot k2 hkv
  | plainVal v => simp at heq

/-- C10 witness: a base holder declaring parameter p, a derived holder
declaring nothing of its own; the collected list omits the inherited
parameter. -/
theorem c10_no_inherited_params_witness :
    (⟨"p", "float", Option.none, Option.some (PyVal.float "7.0"),
        Option.none, Option.none⟩ : MutatorParam)
      ∉ (mkMutatorDescriptor (Option.some "MyMutator") Option.none Option.none
          Option.none Option.none Option.none Option.none Option.none
          (Option.some (HolderCls.mk
            (Option.some (HolderCls.mk Option.none
              [("p", HolderAttr.mutParam
                  ⟨"p", "float", Option.none, Option.some (PyVal.float "7.0"),
                    Option.none, Option.none⟩)]))
            []))).paramDescriptors :=
  c10_no_inherited_params (Option.some "MyMutator") Option.none Option.none
    Option.none Option.none Option.none Option.none Option.none
    (HolderCls.mk Option.none
      [("p", HolderAttr.mutParam
          ⟨"p", "float", Option.none, Option.some (PyVal.float "7.0"),
            Option.none, Option.none⟩)])
    []
    ⟨"p", "float", Option.none, Option.some (PyVal.float "7.0"),
      Option.none, Option.none⟩
    "p" (List.mem_singleton.mpr rfl) (fun k2 h => by simp at h)

end AuxonSDK
